import Mathlib

/-!
Verification of the `from-zip` engine (`src/BtgFromZip/fromzip.py`).

The file shallowly embeds the engine: the JSON values that `json.load`
produces, the Python container operations the code applies to them
(`in`, subscription, iteration, with their dynamic type errors), the
four pattern matchers, the password-list normalization of `__init__`,
the manifest-processing loops that build `self.file_list`, the raw-name
fallback loop, and the three read views `names()`, `infos()`, `files()`.
`re.search` is treated as an oracle `String → String → Bool` (the code
only composes it; it never inspects it), and the result of `json.load`
on the bytes of `manifest.json` is carried by the archive model as an
`Option Json` (`none` models a parse failure).  Encrypted-entry opening
is modelled per entry by a predicate `opens : Option String → Bool`
(`none` is the "no password" candidate); `zipfile` raises `RuntimeError`
on a wrong password, which the password loop of `files()` swallows.
Directory detection follows `zipfile.ZipInfo.is_dir`, which is true
exactly when the stored name ends with a slash.
-/

/-- JSON values as produced by Python's `json.load`: an `obj` models a
`dict` whose keys are unique strings (the parser keeps the last
duplicate), `arr` a list, `num` an integer (float payloads do not occur
in any property under study). -/
inductive Json where
  | null
  | bool (b : Bool)
  | num (n : Int)
  | str (s : String)
  | arr (xs : List Json)
  | obj (fields : List (String × Json))

mutual

/-- Structural equality of JSON values, the `==` Python applies between
`json.load` results and string literals. -/
def Json.beq : Json → Json → Bool
  | .null, .null => true
  | .bool a, .bool b => a == b
  | .num a, .num b => a == b
  | .str a, .str b => a == b
  | .arr xs, .arr ys => Json.beqArr xs ys
  | .obj fs, .obj gs => Json.beqObj fs gs
  | _, _ => false

/-- Elementwise equality of JSON arrays. -/
def Json.beqArr : List Json → List Json → Bool
  | [], [] => true
  | x :: xs, y :: ys => Json.beq x y && Json.beqArr xs ys
  | _, _ => false

/-- Fieldwise equality of JSON objects. -/
def Json.beqObj : List (String × Json) → List (String × Json) → Bool
  | [], [] => true
  | (k, v) :: fs, (l, w) :: gs => k == l && Json.beq v w && Json.beqObj fs gs
  | _, _ => false

end

instance : BEq Json := ⟨Json.beq⟩

/-- Python exceptions that the engine can raise or propagate.
`exception msg` is a `raise Exception(msg)` from `fromzip.py` itself;
the others are interpreter-raised. -/
inductive PyErr where
  | exception (msg : String)
  | typeError
  | keyError (key : String)
  | attributeError
  | runtimeError
  | unboundLocal (v : String)
deriving DecidableEq

/-- Python `str.lower`, characterwise (the names under study are ASCII). -/
def pyLower (s : String) : String := ⟨s.data.map Char.toLower⟩

/-- Python `s.startswith(pre)`. -/
def pyStartswith (s pre : String) : Bool := pre.data.isPrefixOf s.data

/-- Python `s.endswith(suf)`. -/
def pyEndswith (s suf : String) : Bool := suf.data.reverse.isPrefixOf s.data.reverse

/-- Contiguous-substring test on character lists. -/
def listHasSub (needle : List Char) : List Char → Bool
  | [] => needle.isEmpty
  | c :: t => needle.isPrefixOf (c :: t) || listHasSub needle t

/-- Python `needle in hay` on strings: contiguous substring. -/
def pyIn (needle hay : String) : Bool := listHasSub needle.data hay.data

/-- Python `needle in j` for a string needle against a `json.load`
value: key membership for a dict, element equality for a list,
substring for a string, `TypeError` otherwise. -/
def pyContains (needle : String) : Json → Except PyErr Bool
  | .obj fs => .ok (fs.any (fun kv => kv.1 == needle))
  | .arr xs => .ok (xs.any (fun x => x == Json.str needle))
  | .str s => .ok (pyIn needle s)
  | _ => .error .typeError

/-- Python `j[key]` for a string key: dict lookup (`KeyError` when
absent), `TypeError` on any non-dict (list and string indices must be
integers). -/
def pySubscript (j : Json) (key : String) : Except PyErr Json :=
  match j with
  | .obj fs =>
    match fs.find? (fun kv => kv.1 == key) with
    | some kv => .ok kv.2
    | none => .error (.keyError key)
  | _ => .error .typeError

/-- Python `for x in j`: elements of a list, keys of a dict,
one-character strings of a string, `TypeError` otherwise. -/
def pyIter : Json → Except PyErr (List Json)
  | .arr xs => .ok xs
  | .obj fs => .ok (fs.map (fun kv => Json.str kv.1))
  | .str s => .ok (s.data.map (fun c => Json.str c.toString))
  | _ => .error .typeError

/-- The `MatchType` enum of `fromzip.py` (lines 7-12). -/
inductive MatchType where
  | starts_with
  | contains
  | ends_with
  | regex
deriving DecidableEq

/-- `MatchType(match_type)` of line 19: `some` on the four member
values, `none` models the `ValueError` that line 22 turns into the
configuration error. -/
def MatchType.ofString? (s : String) : Option MatchType :=
  if s = "starts_with" then some .starts_with
  else if s = "contains" then some .contains
  else if s = "ends_with" then some .ends_with
  else if s = "regex" then some .regex
  else none

/-- The four matcher methods of `fromzip.py` (lines 82-100) on a string
argument, dispatched by `MatchType` instead of `getattr`: the candidate
is lowercased first when `match_case` is false, then compared against
the stored pattern (`starts_with`, `contains`, `ends_with`) or handed
with the stored pattern to the `re.search` oracle `re`. -/
def matcherStr (re : String → String → Bool) (mt : MatchType) (pat : String) (mc : Bool)
    (item : String) : Bool :=
  let it := if mc then item else pyLower item
  match mt with
  | .starts_with => pyStartswith it pat
  | .contains => pyIn pat it
  | .ends_with => pyEndswith it pat
  | .regex => re pat it

/-- `self.matcher` applied to a `json.load` value (line 60 applies it to
`meta['value']`): on a non-string, `item.lower()` raises
`AttributeError` when `match_case` is false; with `match_case` true,
`starts_with`/`ends_with` raise `AttributeError`, `regex` raises
`TypeError`, and `contains` performs Python's `in`. -/
def matcherJson (re : String → String → Bool) (mt : MatchType) (pat : String) (mc : Bool)
    (item : Json) : Except PyErr Bool :=
  match item with
  | .str s => .ok (matcherStr re mt pat mc s)
  | _ =>
    if mc then
      match mt with
      | .contains => pyContains pat item
      | .regex => .error .typeError
      | _ => .error .attributeError
    else .error .attributeError

/-- Password-list normalization of `__init__` (lines 25-29): a missing
list becomes `[None]`; a list without `None` gets `None` inserted at
position 0; a list that already holds `None` anywhere is kept as is. -/
def normalizePasswords : Option (List (Option String)) → List (Option String)
  | none => [none]
  | some pws => if pws.contains none then pws else none :: pws

/-- One archive member: its stored name and, for each password
candidate (`none` is "open without password"), whether
`ZipFile.open` succeeds on it (`false` models the `RuntimeError` of a
wrong or missing password). -/
structure ZipEntry where
  filename : String
  opens : Option String → Bool

/-- `ZipInfo.is_dir`: the stored name ends with a slash. -/
def ZipEntry.is_dir (e : ZipEntry) : Bool := pyEndswith e.filename "/"

/-- The opened archive: its central-directory entries in physical
order, and the outcome of `json.load` on the `manifest.json` member
when one exists (`none` models undecodable bytes, where `json.load`
raises and line 41's bare `except` swallows the error). -/
structure ZipFile where
  entries : List ZipEntry
  manifestParse : Option Json

/-- Python `d[k] = v` on the insertion-ordered dict `self.file_list`:
an existing key keeps its position (and its original key object), a new
key is appended. -/
def dictInsert (fl : List (Json × String)) (k : Json) (v : String) : List (Json × String) :=
  if fl.any (fun kv => kv.1 == k) then
    fl.map (fun kv => if kv.1 == k then (kv.1, v) else kv)
  else fl ++ [(k, v)]

/-- Python `'\\'.join((filepath, filename))` resp. `'/'`-join of lines
65-68, separator chosen by whether the path holds a backslash; `join`
raises `TypeError` unless both parts are strings. -/
def joinPaths (fp fn : Json) : Except PyErr String := do
  let hasB ← pyContains "\\" fp
  match fp, fn with
  | .str p, .str n => .ok (p ++ (if hasB then "\\" else "/") ++ n)
  | _, _ => .error .typeError

/-- The metadata loop of `__init__` (lines 56-68) for one result:
threads the `filename`/`filepath` locals across the metadata sequence
and (re)assigns `self.file_list[result['payload']]` whenever both are
set. -/
def metaLoop (M : Json → Except PyErr Bool) (result : Json) :
    List Json → Option Json → Option Json → List (Json × String) →
    Except PyErr (List (Json × String))
  | [], _, _, fl => .ok fl
  | meta :: rest, fn, fp, fl => do
    let hasName ← pyContains "name" meta
    let hasBoth ← if hasName then pyContains "value" meta else pure false
    if hasBoth then do
      let nm ← pySubscript meta "name"
      let fn' ← if nm == Json.str "mandiant/mir/agent/FileName" then do
          let v ← pySubscript meta "value"
          let b ← M v
          pure (if b then some v else fn)
        else pure fn
      let fp' ← if nm == Json.str "mandiant/mir/agent/FilePath" then do
          let v ← pySubscript meta "value"
          pure (some v)
        else pure fp
      match fn', fp' with
      | some fnv, some fpv => do
        let joined ← joinPaths fpv fnv
        let payload ← pySubscript result "payload"
        metaLoop M result rest (some fnv) (some fpv) (dictInsert fl payload joined)
      | _, _ => metaLoop M result rest fn' fp' fl
    else metaLoop M result rest fn fp fl

/-- The `enumerate(audit['results'])` loop of `__init__` (lines 51-68):
`payload` or `metadata` missing from a result is a hard error naming
the index. -/
def resultLoop (M : Json → Except PyErr Bool) :
    Nat → List Json → List (Json × String) → Except PyErr (List (Json × String))
  | _, [], fl => .ok fl
  | i, result :: rest, fl => do
    let hasPayload ← pyContains "payload" result
    if hasPayload then do
      let hasMeta ← pyContains "metadata" result
      if hasMeta then do
        let md ← pySubscript result "metadata"
        let metas ← pyIter md
        let fl' ← metaLoop M result metas none none fl
        resultLoop M (i + 1) rest fl'
      else .error (.exception ("metadata missing from audit result[" ++ toString i ++ "]"))
    else .error (.exception ("payload missing from audit result[" ++ toString i ++ "]"))

/-- The audits loop of `__init__` (lines 45-68): a missing `generator`
is a hard error; an audit whose generator is not the accepted producer
is skipped; an accepted audit must have `results`. -/
def auditLoop (M : Json → Except PyErr Bool) :
    List Json → List (Json × String) → Except PyErr (List (Json × String))
  | [], fl => .ok fl
  | audit :: rest, fl => do
    let hasGen ← pyContains "generator" audit
    if hasGen then do
      let gen ← pySubscript audit "generator"
      if gen == Json.str "multifile-acquisition-api" then do
        let hasRes ← pyContains "results" audit
        if hasRes then do
          let results ← pySubscript audit "results"
          let resultList ← pyIter results
          let fl' ← resultLoop M 0 resultList fl
          auditLoop M rest fl'
        else .error (.exception "results missing from audit")
      else auditLoop M rest fl
    else .error (.exception "generator missing from audit")

/-- The per-entry condition of the fallback loop (line 72): not a
directory and the raw stored name satisfies the matcher. -/
def entryMatches (re : String → String → Bool) (mt : MatchType) (pat : String) (mc : Bool)
    (e : ZipEntry) : Bool :=
  !e.is_dir && matcherStr re mt pat mc e.filename

/-- The fallback loop of `__init__` (lines 70-73): every matching
non-directory entry is recorded under its own name. -/
def fallbackLoop (re : String → String → Bool) (mt : MatchType) (pat : String) (mc : Bool) :
    List ZipEntry → List (Json × String) → List (Json × String)
  | [], fl => fl
  | e :: rest, fl =>
    if entryMatches re mt pat mc e then
      fallbackLoop re mt pat mc rest (dictInsert fl (Json.str e.filename) e.filename)
    else fallbackLoop re mt pat mc rest fl

/-- The engine state a successful `__init__` leaves behind. -/
structure FZ where
  match_type : MatchType
  pattern : String
  match_case : Bool
  passwords : List (Option String)
  zip_file : ZipFile
  file_list : List (Json × String)

/-- A failed `__init__`: the exception and whether line 32 had already
opened the archive handle when it was raised. -/
structure InitFail where
  err : PyErr
  handleOpened : Bool
deriving DecidableEq

/-- `FromZip.__init__` (lines 17-73).  Validates the match type, folds
the pattern (line 24), normalizes the password list, opens the archive
(line 32), then: when a member named `manifest.json` exists it is
opened (an undecryptable one propagates `RuntimeError`) and its parse
outcome drives the manifest path - a failed parse leaves the local `j`
unassigned so line 43 raises `UnboundLocalError`; a parsed value must
pass the `audits` membership test and the audit loops.  Only when no
`manifest.json` member exists does the raw-name fallback loop run. -/
def fzInit (re : String → String → Bool) (zip : ZipFile) (match_type : String)
    (pattern : String) (match_case : Bool) (passwords : Option (List (Option String))) :
    Except InitFail FZ :=
  match MatchType.ofString? match_type with
  | none =>
    .error ⟨.exception "Invalid MatchType; valid types are [starts_with, contains, ends_with, regex]",
            false⟩
  | some mt =>
    let pat := if match_case then pattern else pyLower pattern
    let pws := normalizePasswords passwords
    let M := matcherJson re mt pat match_case
    if (zip.entries.map (fun e => e.filename)).contains "manifest.json" then
      match zip.entries.find? (fun e => e.filename == "manifest.json") with
      | none => .error ⟨.keyError "manifest.json", true⟩
      | some me =>
        if me.opens none then
          match zip.manifestParse with
          | none => .error ⟨.unboundLocal "j", true⟩
          | some j =>
            match pyContains "audits" j with
            | .error e => .error ⟨e, true⟩
            | .ok hasAudits =>
              if hasAudits then
                match (do
                  let audits ← pySubscript j "audits"
                  let auditList ← pyIter audits
                  auditLoop M auditList ([] : List (Json × String))) with
                | .error e => .error ⟨e, true⟩
                | .ok fl => .ok ⟨mt, pat, match_case, pws, zip, fl⟩
              else .error ⟨.exception "audits missing from FireEye manifest", true⟩
        else .error ⟨.runtimeError, true⟩
    else
      .ok ⟨mt, pat, match_case, pws, zip, fallbackLoop re mt pat match_case zip.entries []⟩

/-- `names()` (lines 102-104): the keys of `self.file_list` in
insertion order. -/
def FZ.names (s : FZ) : List Json := s.file_list.map Prod.fst

/-- `zip_info.filename in self.file_list` (lines 108 and 113). -/
def fzMember (s : FZ) (n : String) : Bool :=
  s.file_list.any (fun kv => kv.1 == Json.str n)

/-- `infos()` (lines 106-109): the archive entries, in archive order,
whose stored name is a key of `self.file_list`. -/
def FZ.infos (s : FZ) : List ZipEntry :=
  s.zip_file.entries.filter (fun e => fzMember s e.filename)

/-- The per-entry guard of `files()` (line 113). -/
def matchedForFiles (s : FZ) (e : ZipEntry) : Bool :=
  !e.is_dir && fzMember s e.filename

/-- The password loop of `files()` (lines 114-123): attempts the
candidates in list order against one entry, returning the attempted
candidates and the first one that opened (none when all failed). -/
def tryPwds (e : ZipEntry) : List (Option String) → List (Option String) × Option (Option String)
  | [] => ([], none)
  | p :: ps =>
    if e.opens p then ([p], some p)
    else ((p :: (tryPwds e ps).1), (tryPwds e ps).2)

/-- The `files()` generator (lines 111-125) driven over a list of
entries: yields `(filename, password-that-opened)` pairs - the stream
handed out is determined by the entry and that password - and stops
with the `Unknown password` exception when some matched entry opens
with no candidate. -/
def filesGo (s : FZ) : List ZipEntry → List (String × Option String) × Option String
  | [] => ([], none)
  | e :: es =>
    if matchedForFiles s e then
      match (tryPwds e s.passwords).2 with
      | some p => (((e.filename, p) :: (filesGo s es).1), (filesGo s es).2)
      | none => ([], some "Unknown password")
    else filesGo s es

/-- `files()` run over the archive's own entry order. -/
def fzFiles (s : FZ) : List (String × Option String) × Option String :=
  filesGo s s.zip_file.entries

/-- Archive-handle events of one `with FromZip(...) as fz:` scope: how
often the handle of line 32 is opened and how often it is closed.  When
`__init__` raises, the `with` statement never reaches `__enter__`, so
`__exit__` (lines 78-80) does not run; when construction succeeds,
`__exit__` runs once whether or not the body raises. -/
def runSession (re : String → String → Bool) (zip : ZipFile) (match_type pattern : String)
    (match_case : Bool) (passwords : Option (List (Option String)))
    (_bodyRaises : Bool) : Nat × Nat :=
  match fzInit re zip match_type pattern match_case passwords with
  | .error f => (if f.handleOpened then 1 else 0, 0)
  | .ok _ => (1, 1)

/-- The spec's matcher (spec sections 4.1 and 8): the chosen string
operation evaluated after identical case-folding of pattern and
candidate when case sensitivity is off, and no folding when it is on. -/
def specMatches (re : String → String → Bool) (mt : MatchType) (pattern : String) (mc : Bool)
    (cand : String) : Bool :=
  let p := if mc then pattern else pyLower pattern
  let c := if mc then cand else pyLower cand
  match mt with
  | .starts_with => pyStartswith c p
  | .contains => pyIn p c
  | .ends_with => pyEndswith c p
  | .regex => re p c

/-- The matcher the constructed engine exhibits: `matcherStr` applied
to the pattern as stored by line 24. -/
def fzMatches (re : String → String → Bool) (mt : MatchType) (pattern : String) (mc : Bool)
    (cand : String) : Bool :=
  matcherStr re mt (if mc then pattern else pyLower pattern) mc cand

/-- A store mapping references to Python list objects, to express which
list object lines 25-29 mutate. -/
def PwStore := Nat → List (Option String)

/-- Write one cell of the store. -/
def storeSet (σ : PwStore) (r : Nat) (v : List (Option String)) : PwStore :=
  fun q => if q = r then v else σ q

/-- Lines 25-29 as an action on the caller's heap: `passwords=None`
rebinds the local to a fresh `[None]` and leaves the store alone;
a referenced list without `None` is mutated in place by
`insert(0, None)`; a referenced list holding `None` is untouched.
The returned list is the object `self.passwords` is bound to. -/
def initPasswordsStore (σ : PwStore) (arg : Option Nat) : PwStore × List (Option String) :=
  match arg with
  | none => (σ, [none])
  | some r =>
    if (σ r).contains none then (σ, σ r)
    else (storeSet σ r (none :: σ r), none :: σ r)

/-! ## Concrete archives used as inputs in the theorems below -/

/-- An entry that opens with every password candidate (an unencrypted
member). -/
def opensAll : Option String → Bool := fun _ => true

/-- A manifest metadata record `{name: k, value: v}`. -/
def mkMeta (k v : String) : Json := .obj [("name", .str k), ("value", .str v)]

/-- A manifest result with one FileName and one FilePath record. -/
def mkResult (payload fname fpath : String) : Json :=
  .obj [("payload", .str payload),
        ("metadata", .arr [mkMeta "mandiant/mir/agent/FileName" fname,
                           mkMeta "mandiant/mir/agent/FilePath" fpath])]

/-- A manifest with a single accepted audit holding the given results. -/
def mkManifest (results : List Json) : Json :=
  .obj [("audits", .arr [.obj [("generator", .str "multifile-acquisition-api"),
                               ("results", .arr results)]])]

/-- An archive whose `manifest.json` member does not decode as JSON. -/
def zipC1 : ZipFile := ⟨[⟨"manifest.json", opensAll⟩, ⟨"a.txt", opensAll⟩], none⟩

/-- An archive without a manifest whose single entry `e.txt` opens only
with the password `"a"`. -/
def entryC3 : ZipEntry := ⟨"e.txt", fun p => p == some "a"⟩

/-- Archive around `entryC3`. -/
def zipC3 : ZipFile := ⟨[entryC3], none⟩

/-- An archive storing `b.txt` before `a.txt` whose manifest lists the
payloads in the opposite order. -/
def zipC5 : ZipFile :=
  ⟨[⟨"manifest.json", opensAll⟩, ⟨"b.txt", opensAll⟩, ⟨"a.txt", opensAll⟩],
   some (mkManifest [mkResult "a.txt" "a" "p", mkResult "b.txt" "b" "p"])⟩

/-- An archive whose manifest parses as the empty JSON object. -/
def zipC6 : ZipFile := ⟨[⟨"manifest.json", opensAll⟩], some (.obj [])⟩

/-- An archive whose manifest parses as an object without `audits`. -/
def zipC7 : ZipFile := ⟨[⟨"manifest.json", opensAll⟩], some (.obj [("k", .null)])⟩

/-- An archive holding a directory entry `d/` that the manifest lists
as a payload. -/
def zipC8 : ZipFile :=
  ⟨[⟨"manifest.json", opensAll⟩, ⟨"d/", opensAll⟩],
   some (mkManifest [mkResult "d/" "x" "p"])⟩

/-- An archive whose manifest records a payload `ghost` that no archive
entry carries, next to the real payload `real.txt`. -/
def zipC10 : ZipFile :=
  ⟨[⟨"manifest.json", opensAll⟩, ⟨"real.txt", opensAll⟩],
   some (mkManifest [mkResult "ghost" "g" "p", mkResult "real.txt" "r" "p"])⟩

/-- A manifest-free archive with one matching file and one directory. -/
def zipW : ZipFile := ⟨[⟨"ax.txt", opensAll⟩, ⟨"d/", opensAll⟩], none⟩

/-- The state `fzInit` produces on `zipW` with case-sensitive
`contains "x"`. -/
def fzW : FZ := ⟨.contains, "x", true, [none], zipW, [(Json.str "ax.txt", "ax.txt")]⟩

/-! ## Claims -/

/-- C1: the claim says an archive whose `manifest.json` is unparseable
falls back to raw-name matching with no error.  The code instead
raises: after the bare `except` swallows the `json.load` failure, line
43 evaluates `'audits' in j` with the local `j` never assigned, which
is an `UnboundLocalError`.  This theorem evaluates the embedded
constructor at such an archive. -/
theorem fz_C1_bug :
    fzInit (fun _ _ => false) zipC1 "contains" "a" false none
      = Except.error ⟨PyErr.unboundLocal "j", true⟩ := rfl

/-- C2 counterexample: for the supplied list `["a", None]`, which
already holds the no-password candidate in second position,
construction keeps the list unchanged, so the no-password candidate is
not its first element as the claim states. -/
theorem fz_C2_cex :
    normalizePasswords (some [some "a", none]) = [some "a", none]
    ∧ ([some "a", (none : Option String)]).head? ≠ some none :=
  ⟨rfl, by decide⟩

/-- C2 (amended): when the supplied list does not hold the no-password
candidate it is prepended - the result starts with it, holds it exactly
once, and keeps the remaining candidates in order; when the supplied
list already holds it (at any position, any number of times) the list
is kept entirely unchanged; a missing list becomes the singleton
no-password list. -/
theorem fz_C2_amended (pl : List (Option String)) :
    (pl.contains none = false →
      normalizePasswords (some pl) = none :: pl
      ∧ (normalizePasswords (some pl)).head? = some none
      ∧ (normalizePasswords (some pl)).count none = 1
      ∧ (normalizePasswords (some pl)).tail = pl)
    ∧ (pl.contains none = true → normalizePasswords (some pl) = pl)
    ∧ normalizePasswords none = [none] := by
  refine ⟨?_, ?_, rfl⟩
  · intro h
    have hmem : (none : Option String) ∉ pl := by simpa using h
    have he : normalizePasswords (some pl) = none :: pl := by
      simp [normalizePasswords, hmem]
    refine ⟨he, by simp [he], ?_, by simp [he]⟩
    rw [he]
    simp [List.count_cons_self, List.count_eq_zero.mpr hmem]
  · intro h
    have hmem : (none : Option String) ∈ pl := by simpa using h
    simp [normalizePasswords, hmem]

/-- C2 witness: concrete applications of the amended normalization at
`["a"]` (candidate absent) and `["a", None]` (candidate present). -/
theorem fz_C2_amended_w :
    normalizePasswords (some [some "a"]) = [none, some "a"]
    ∧ normalizePasswords (some [some "a", none]) = [some "a", none] :=
  ⟨((fz_C2_amended [some "a"]).1 (by decide)).1,
   (fz_C2_amended [some "a", none]).2.1 (by decide)⟩

/-- C4: for every match type, pattern, candidate and case flag, the
matcher the constructed engine exhibits (pattern folded once at
construction by line 24, candidate folded per call by lines 82-100)
equals the spec's string operation applied after identical case-folding
of pattern and candidate, with the `re.search` oracle quantified. -/
theorem fz_C4 (re : String → String → Bool) (mt : MatchType) (pattern : String) (mc : Bool)
    (cand : String) :
    fzMatches re mt pattern mc cand = specMatches re mt pattern mc cand := by
  cases mc <;> cases mt <;> rfl

/-- C6 counterexample: on an archive whose `manifest.json` parses as
the empty JSON object, construction raises the error with message
`audits missing from FireEye manifest`, not the message
`audits missing from manifest` the claim states. -/
theorem fz_C6_cex :
    fzInit (fun _ _ => false) zipC6 "contains" "" false none
      = Except.error ⟨PyErr.exception "audits missing from FireEye manifest", true⟩
    ∧ "audits missing from FireEye manifest" ≠ "audits missing from manifest" :=
  ⟨rfl, by decide⟩

/-- C6 (amended): for every archive whose `manifest.json` opens and
parses as a JSON object lacking the top-level `audits` key,
construction raises the manifest-format error, whose message is
`audits missing from FireEye manifest`, and does not fall back to
raw-name matching (construction fails, so no match set is built). -/
theorem fz_C6_amended (re : String → String → Bool) (zip : ZipFile) (mts pattern : String)
    (mc : Bool) (pws : Option (List (Option String))) (mt : MatchType) (me : ZipEntry)
    (fs : List (String × Json))
    (hmt : MatchType.ofString? mts = some mt)
    (hmem : (zip.entries.map (fun e => e.filename)).contains "manifest.json" = true)
    (hfind : zip.entries.find? (fun e => e.filename == "manifest.json") = some me)
    (hopen : me.opens none = true)
    (hparse : zip.manifestParse = some (Json.obj fs))
    (hnoaud : fs.any (fun kv => kv.1 == "audits") = false) :
    fzInit re zip mts pattern mc pws
      = Except.error ⟨PyErr.exception "audits missing from FireEye manifest", true⟩ := by
  have hx : ∃ x ∈ zip.entries, x.filename = "manifest.json" := by simpa using hmem
  simp [fzInit, hmt, hmem, hfind, hopen, hparse, pyContains, hnoaud, hx]

/-- C6 witness: the amended theorem applied to the concrete archive
whose manifest is the empty object. -/
theorem fz_C6_amended_w :
    fzInit (fun _ _ => false) zipC6 "contains" "" false none
      = Except.error ⟨PyErr.exception "audits missing from FireEye manifest", true⟩ :=
  fz_C6_amended (fun _ _ => false) zipC6 "contains" "" false none MatchType.contains
    ⟨"manifest.json", opensAll⟩ [] rfl (by decide) rfl rfl rfl rfl

/-- C7: the claim says the archive handle opened at construction is
closed exactly once on every exit path, including exceptions raised
during manifest parsing.  On an archive whose manifest parses but
lacks `audits`, `__init__` raises after line 32 opened the handle; the
`with` statement never reaches `__enter__`, so `__exit__` never runs
and the handle is closed zero times - whether or not the body would
have raised. -/
theorem fz_C7_bug :
    runSession (fun _ _ => false) zipC7 "contains" "" false none true = (1, 0)
    ∧ runSession (fun _ _ => false) zipC7 "contains" "" false none false = (1, 0)
    ∧ (0 : Nat) ≠ 1 :=
  ⟨rfl, rfl, by decide⟩

/-- C9: when the caller's own list (the store cell at `r`) lacks the
no-password candidate, construction mutates that very object in place -
afterwards the caller-visible cell holds `None` prepended, it differs
from its previous value, `self.passwords` is bound to exactly that
object's content, and no other cell of the heap is touched. -/
theorem fz_C9 (σ : PwStore) (r : Nat) (h : (σ r).contains none = false) :
    (initPasswordsStore σ (some r)).1 r = none :: σ r
    ∧ (initPasswordsStore σ (some r)).1 r ≠ σ r
    ∧ (initPasswordsStore σ (some r)).2 = (initPasswordsStore σ (some r)).1 r
    ∧ ∀ q, q ≠ r → (initPasswordsStore σ (some r)).1 q = σ q := by
  have hmem : (none : Option String) ∉ σ r := by simpa using h
  have h1 : (initPasswordsStore σ (some r)).1 r = none :: σ r := by
    simp [initPasswordsStore, hmem, storeSet]
  refine ⟨h1, ?_, ?_, ?_⟩
  · rw [h1]
    intro heq
    have := congrArg List.length heq
    simp at this
  · rw [h1]
    simp [initPasswordsStore, hmem]
  · intro q hq
    simp [initPasswordsStore, hmem, storeSet, hq]

/-- C9 witness: the heap holding `["a"]` at cell 0 is mutated in place
to `[None, "a"]`. -/
theorem fz_C9_w :
    (initPasswordsStore (fun _ => [some "a"]) (some 0)).1 0 = [none, some "a"]
    ∧ (initPasswordsStore (fun _ => [some "a"]) (some 0)).1 1 = [some "a"] :=
  ⟨(fz_C9 (fun _ => [some "a"]) 0 (by decide)).1,
   (fz_C9 (fun _ => [some "a"]) 0 (by decide)).2.2.2 1 (by decide)⟩

/-! ## Helper lemmas about the password loop, the fallback loop and the views -/

/-- On string constructors, JSON equality is string equality. -/
theorem Json.beq_str (a b : String) : (Json.str a == Json.str b) = (a == b) := rfl

/-- The winner of the password loop is the first candidate that opens
the entry. -/
theorem tryPwds_snd (e : ZipEntry) : ∀ ps : List (Option String),
    (tryPwds e ps).2 = ps.find? e.opens
  | [] => rfl
  | p :: ps => by
    cases h : e.opens p with
    | true => simp [tryPwds, h, List.find?_cons_of_pos]
    | false => simp [tryPwds, h, List.find?_cons_of_neg, tryPwds_snd e ps]

/-- When no candidate opens the entry, every candidate is attempted. -/
theorem tryPwds_fst_none (e : ZipEntry) : ∀ ps : List (Option String),
    ps.find? e.opens = none → (tryPwds e ps).1 = ps
  | [] => fun _ => rfl
  | p :: ps => fun h => by
    cases hp : e.opens p with
    | true => simp [List.find?_cons_of_pos, hp] at h
    | false =>
      rw [List.find?_cons_of_neg _ (by simp [hp])] at h
      simp [tryPwds, hp, tryPwds_fst_none e ps h]

/-- When some candidate opens the entry, exactly the failing head of
the list followed by the first success is attempted. -/
theorem tryPwds_fst_some (e : ZipEntry) : ∀ (ps : List (Option String)) (p : Option String),
    ps.find? e.opens = some p →
    (tryPwds e ps).1 = ps.takeWhile (fun q => !e.opens q) ++ [p]
  | [], p => by intro h; simp at h
  | q :: ps, p => by
    intro h
    cases hq : e.opens q with
    | true =>
      rw [List.find?_cons_of_pos _ (by simp [hq])] at h
      have hqp : q = p := by injection h
      subst hqp
      simp [tryPwds, hq, List.takeWhile_cons]
    | false =>
      rw [List.find?_cons_of_neg _ (by simp [hq])] at h
      simp [tryPwds, hq, List.takeWhile_cons, tryPwds_fst_some e ps p h]

/-- One step of `files()` on a matched entry some candidate opens. -/
theorem filesGo_cons_some (s : FZ) (e : ZipEntry) (es : List ZipEntry) (p : Option String)
    (hm : matchedForFiles s e = true) (hp : s.passwords.find? e.opens = some p) :
    filesGo s (e :: es) = (((e.filename, p) :: (filesGo s es).1), (filesGo s es).2) := by
  simp [filesGo, hm, tryPwds_snd, hp]

/-- One step of `files()` on a matched entry no candidate opens. -/
theorem filesGo_cons_none (s : FZ) (e : ZipEntry) (es : List ZipEntry)
    (hm : matchedForFiles s e = true) (hp : s.passwords.find? e.opens = none) :
    filesGo s (e :: es) = ([], some "Unknown password") := by
  simp [filesGo, hm, tryPwds_snd, hp]

/-- Every pair `files()` yields comes from a non-directory entry of the
iterated list whose name is in the match set. -/
theorem filesGo_mem (s : FZ) : ∀ (es : List ZipEntry) (x : String × Option String),
    x ∈ (filesGo s es).1 →
    ∃ e, e ∈ es ∧ e.filename = x.1 ∧ e.is_dir = false ∧ fzMember s e.filename = true
  | [], x => by intro h; simp [filesGo] at h
  | e :: es, x => fun h => by
    cases hm : matchedForFiles s e with
    | false =>
      rw [filesGo, if_neg (by simp [hm])] at h
      obtain ⟨e', he', rest⟩ := filesGo_mem s es x h
      exact ⟨e', List.mem_cons_of_mem _ he', rest⟩
    | true =>
      have hmm := hm
      rw [matchedForFiles, Bool.and_eq_true] at hmm
      cases hw : s.passwords.find? e.opens with
      | some p =>
        rw [filesGo_cons_some s e es p hm hw] at h
        rcases List.mem_cons.mp h with h1 | h2
        · refine ⟨e, List.mem_cons_self e es, ?_, ?_, hmm.2⟩
          · rw [h1]
          · simpa using hmm.1
        · obtain ⟨e', he', rest⟩ := filesGo_mem s es x h2
          exact ⟨e', List.mem_cons_of_mem _ he', rest⟩
      | none =>
        rw [filesGo_cons_none s e es hm hw] at h
        simp at h

/-- `files()` yields, in order, an initial segment of the matched
non-directory entries in archive order. -/
theorem filesGo_take (s : FZ) : ∀ es : List ZipEntry, ∃ k,
    (filesGo s es).1.map Prod.fst
      = ((es.filter (fun e => matchedForFiles s e)).map (fun e => e.filename)).take k
  | [] => ⟨0, rfl⟩
  | e :: es => by
    cases hm : matchedForFiles s e with
    | false =>
      obtain ⟨k, hk⟩ := filesGo_take s es
      exact ⟨k, by simp [filesGo, hm, List.filter_cons, hk]⟩
    | true =>
      cases hw : s.passwords.find? e.opens with
      | some p =>
        obtain ⟨k, hk⟩ := filesGo_take s es
        refine ⟨k + 1, ?_⟩
        rw [filesGo_cons_some s e es p hm hw]
        simp [List.filter_cons, hm, hk]
      | none =>
        exact ⟨0, by rw [filesGo_cons_none s e es hm hw]; rfl⟩

/-- Inserting a key absent from the dict appends it. -/
theorem dictInsert_fresh (fl : List (Json × String)) (k : Json) (v : String)
    (h : fl.any (fun kv => kv.1 == k) = false) :
    dictInsert fl k v = fl ++ [(k, v)] := by
  simp [dictInsert, h]

/-- Inserting never introduces keys beyond the old ones and the
inserted one. -/
theorem dictInsert_keys (fl : List (Json × String)) (k : Json) (v : String) (a : Json)
    (h : a ∈ (dictInsert fl k v).map Prod.fst) : a ∈ fl.map Prod.fst ∨ a = k := by
  unfold dictInsert at h
  by_cases hc : fl.any (fun kv => kv.1 == k) = true
  · rw [if_pos hc, List.map_map] at h
    left
    obtain ⟨kv, hkv, hfst⟩ := List.mem_map.mp h
    have hf : (Prod.fst ∘ fun kv : Json × String => if kv.1 == k then (kv.1, v) else kv) kv
        = kv.1 := by
      by_cases hk : (kv.1 == k) = true <;> simp [Function.comp, hk]
    rw [hf] at hfst
    exact List.mem_map.mpr ⟨kv, hkv, hfst⟩
  · rw [if_neg hc, List.map_append] at h
    rcases List.mem_append.mp h with h1 | h2
    · exact Or.inl h1
    · simp at h2
      exact Or.inr h2

/-- Every key the fallback loop records is an old key or the stored
name of a matching non-directory entry. -/
theorem fallbackLoop_mem (re : String → String → Bool) (mt : MatchType) (pat : String)
    (mc : Bool) : ∀ (es : List ZipEntry) (fl : List (Json × String)) (a : Json),
    a ∈ (fallbackLoop re mt pat mc es fl).map Prod.fst →
    a ∈ fl.map Prod.fst
      ∨ ∃ e, e ∈ es ∧ entryMatches re mt pat mc e = true ∧ a = Json.str e.filename
  | [], fl, a => fun h => Or.inl h
  | e :: rest, fl, a => fun h => by
    cases hme : entryMatches re mt pat mc e with
    | false =>
      rw [fallbackLoop, if_neg (by simp [hme])] at h
      rcases fallbackLoop_mem re mt pat mc rest fl a h with h1 | ⟨e', he', hm', ha⟩
      · exact Or.inl h1
      · exact Or.inr ⟨e', List.mem_cons_of_mem _ he', hm', ha⟩
    | true =>
      rw [fallbackLoop, if_pos (by simp [hme])] at h
      rcases fallbackLoop_mem re mt pat mc rest _ a h with h1 | ⟨e', he', hm', ha⟩
      · rcases dictInsert_keys fl _ _ a h1 with h2 | h2
        · exact Or.inl h2
        · exact Or.inr ⟨e, List.mem_cons_self e rest, hme, h2⟩
      · exact Or.inr ⟨e', List.mem_cons_of_mem _ he', hm', ha⟩

/-- With distinct entry names, the fallback loop appends exactly the
matching non-directory entries in archive order. -/
theorem fallbackLoop_names (re : String → String → Bool) (mt : MatchType) (pat : String)
    (mc : Bool) : ∀ (es : List ZipEntry) (fl : List (Json × String)),
    (∀ e ∈ es, fl.any (fun kv => kv.1 == Json.str e.filename) = false) →
    (es.map (fun e => e.filename)).Nodup →
    fallbackLoop re mt pat mc es fl
      = fl ++ (es.filter (entryMatches re mt pat mc)).map
          (fun e => (Json.str e.filename, e.filename))
  | [], fl, _, _ => by simp [fallbackLoop]
  | e :: rest, fl, hdisj, hnd => by
    rw [List.map_cons, List.nodup_cons] at hnd
    cases hme : entryMatches re mt pat mc e with
    | false =>
      have ih := fallbackLoop_names re mt pat mc rest fl
        (fun e' he' => hdisj e' (List.mem_cons_of_mem _ he')) hnd.2
      rw [fallbackLoop, if_neg (by simp [hme]), ih, List.filter_cons]
      simp [hme]
    | true =>
      have hfresh := hdisj e (List.mem_cons_self e rest)
      have hdisj' : ∀ e' ∈ rest,
          (fl ++ [(Json.str e.filename, e.filename)]).any
            (fun kv => kv.1 == Json.str e'.filename) = false := by
        intro e' he'
        have h1 := hdisj e' (List.mem_cons_of_mem _ he')
        have hne : e.filename ≠ e'.filename := by
          intro heq
          exact hnd.1 (List.mem_map.mpr ⟨e', he', heq.symm⟩)
        have h2 : ((Json.str e.filename) == (Json.str e'.filename)) = false := by
          rw [Json.beq_str]
          exact beq_eq_false_iff_ne.mpr hne
        rw [List.any_append]
        simp [h1, h2]
      have ih := fallbackLoop_names re mt pat mc rest
        (fl ++ [(Json.str e.filename, e.filename)]) hdisj' hnd.2
      rw [fallbackLoop, if_pos (by simp [hme]), dictInsert_fresh fl _ _ hfresh, ih,
        List.filter_cons]
      simp [hme]

/-- A name in the match set is a key `names()` enumerates. -/
theorem names_any_of_member (s : FZ) (n : String) (h : fzMember s n = true) :
    (FZ.names s).any (fun k => k == Json.str n) = true := by
  obtain ⟨kv, hkv, hbeq⟩ := List.any_eq_true.mp h
  exact List.any_eq_true.mpr ⟨kv.1, List.mem_map.mpr ⟨kv, hkv, rfl⟩, hbeq⟩

/-- Inversion of `__init__` on a manifest-free archive: construction
succeeds with the fallback match set. -/
theorem fzInit_fallback (re : String → String → Bool) (zip : ZipFile) (mts pattern : String)
    (mc : Bool) (pws : Option (List (Option String))) (mt : MatchType)
    (hmt : MatchType.ofString? mts = some mt)
    (hno : (zip.entries.map (fun e => e.filename)).contains "manifest.json" = false) :
    fzInit re zip mts pattern mc pws
      = Except.ok ⟨mt, if mc then pattern else pyLower pattern, mc, normalizePasswords pws,
          zip, fallbackLoop re mt (if mc then pattern else pyLower pattern) mc
            zip.entries []⟩ := by
  have hno' : ¬ ∃ x ∈ zip.entries, x.filename = "manifest.json" := by simpa using hno
  simp [fzInit, hmt, hno']

/-- C3 counterexample: with the supplied list `["a", None]` (kept
unchanged by normalization because `None` is already a member), the
entry `e.txt`, matched by the pattern, is attempted with `"a"` first
and yielded on that very first attempt - the no-password candidate is
not the first attempt, against the claimed order. -/
theorem fz_C3_cex :
    (fzInit (fun _ _ => false) zipC3 "contains" "" false
        (some [some "a", none])).toOption.map
      (fun s => ((tryPwds entryC3 s.passwords).1, (fzFiles s).1))
      = some ([some "a"], [("e.txt", some "a")])
    ∧ (some "a" : Option String) ≠ none :=
  ⟨by decide, by decide⟩

/-- C3 (amended): for a matched entry, `files()` attempts the
candidates of the normalized list in list order - the no-password
candidate coming first whenever the supplied list did not already
contain it - the first candidate that opens wins: exactly the failing
head of the list plus the winner is attempted, the entry is yielded
with the winning candidate's stream and iteration moves on; when every
candidate fails, everything was attempted and `files()` raises the
`Unknown password` decryption error at that entry. -/
theorem fz_C3_amended (s : FZ) (e : ZipEntry) (es : List ZipEntry)
    (hm : matchedForFiles s e = true) :
    (tryPwds e s.passwords).2 = s.passwords.find? e.opens
    ∧ (∀ p, s.passwords.find? e.opens = some p →
        (tryPwds e s.passwords).1 = s.passwords.takeWhile (fun q => !e.opens q) ++ [p]
        ∧ filesGo s (e :: es) = (((e.filename, p) :: (filesGo s es).1), (filesGo s es).2))
    ∧ (s.passwords.find? e.opens = none →
        (tryPwds e s.passwords).1 = s.passwords
        ∧ filesGo s (e :: es) = ([], some "Unknown password"))
    ∧ (∀ pl : List (Option String), (none : Option String) ∉ pl →
        (normalizePasswords (some pl)).head? = some none) := by
  refine ⟨tryPwds_snd e _, ?_, ?_, ?_⟩
  · intro p hp
    exact ⟨tryPwds_fst_some e _ p hp, filesGo_cons_some s e es p hm hp⟩
  · intro hn
    exact ⟨tryPwds_fst_none e _ hn, filesGo_cons_none s e es hm hn⟩
  · intro pl hpl
    simp [normalizePasswords, hpl]

/-- C3 witness: the amended behaviour at the unencrypted entry of the
concrete fallback-mode engine. -/
theorem fz_C3_amended_w :
    filesGo fzW [⟨"ax.txt", opensAll⟩] = ([("ax.txt", (none : Option String))], none)
    ∧ (normalizePasswords (some [some "a"])).head? = some (none : Option String) := by
  have h := fz_C3_amended fzW ⟨"ax.txt", opensAll⟩ [] (by decide)
  refine ⟨?_, h.2.2.2 [some "a"] (by decide)⟩
  have h2 := (h.2.1 none (by decide)).2
  rw [h2]
  rfl

/-- C5 counterexample: on the archive storing `b.txt` before `a.txt`
whose manifest lists the payloads as `a.txt` then `b.txt`, `names()`
enumerates `[a.txt, b.txt]` while the archive's own order restricted to
the match set is `[b.txt, a.txt]` - so `names()` does not enumerate in
archive order. -/
theorem fz_C5_cex :
    ((fzInit (fun _ _ => false) zipC5 "contains" "" false none).toOption.map FZ.names
      = some [Json.str "a.txt", Json.str "b.txt"])
    ∧ ((fzInit (fun _ _ => false) zipC5 "contains" "" false none).toOption.map
        (fun s => (s.zip_file.entries.filter (fun e => fzMember s e.filename)).map
          (fun e => Json.str e.filename))
      = some [Json.str "b.txt", Json.str "a.txt"])
    ∧ [Json.str "a.txt", Json.str "b.txt"] ≠ [Json.str "b.txt", Json.str "a.txt"] := by
  refine ⟨rfl, rfl, ?_⟩
  intro h
  injection h with h1 _
  injection h1 with h2
  exact absurd h2 (by decide)

/-- C5 (amended): `infos()` and `files()` do enumerate in archive
order restricted to match membership - `infos()` is an order-preserving
sublist of the entries characterized by match membership, and the
names `files()` yields form an initial segment of the matched
non-directory entries in archive order; `names()` enumerates the match
set in insertion order, which in fallback mode (no `manifest.json`
member, distinct entry names) equals archive order restricted to the
match set - in manifest mode it is the manifest-derived order instead
(see the counterexample). -/
theorem fz_C5_amended (s : FZ) :
    List.Sublist (FZ.infos s) s.zip_file.entries
    ∧ (∀ e, e ∈ FZ.infos s ↔ e ∈ s.zip_file.entries ∧ fzMember s e.filename = true)
    ∧ (∃ k, (fzFiles s).1.map Prod.fst
        = ((s.zip_file.entries.filter (fun e => matchedForFiles s e)).map
            (fun e => e.filename)).take k)
    ∧ (∀ (re : String → String → Bool) (zip : ZipFile) (mts pattern : String) (mc : Bool)
        (pws : Option (List (Option String))) (mt : MatchType) (s' : FZ),
        MatchType.ofString? mts = some mt →
        (zip.entries.map (fun e => e.filename)).contains "manifest.json" = false →
        (zip.entries.map (fun e => e.filename)).Nodup →
        fzInit re zip mts pattern mc pws = Except.ok s' →
        FZ.names s'
          = (zip.entries.filter
              (entryMatches re mt (if mc then pattern else pyLower pattern) mc)).map
            (fun e => Json.str e.filename)) := by
  refine ⟨List.filter_sublist _, ?_, filesGo_take s _, ?_⟩
  · intro e
    simp [FZ.infos, List.mem_filter]
  · intro re zip mts pattern mc pws mt s' hmt hno hnd hok
    rw [fzInit_fallback re zip mts pattern mc pws mt hmt hno] at hok
    obtain rfl := (Except.ok.inj hok).symm
    show (fallbackLoop re mt _ mc zip.entries []).map Prod.fst = _
    rw [fallbackLoop_names re mt _ mc zip.entries [] (by simp) hnd]
    simp [List.map_map, Function.comp]

/-- C5 witness: the amended statement at the concrete manifest-free
archive. -/
theorem fz_C5_amended_w :
    FZ.names fzW = [Json.str "ax.txt"]
    ∧ List.Sublist (FZ.infos fzW) fzW.zip_file.entries := by
  have h := fz_C5_amended fzW
  refine ⟨?_, h.1⟩
  have h4 := h.2.2.2 (fun _ _ => false) zipW "contains" "x" true none MatchType.contains fzW
    rfl (by decide) (by decide) rfl
  rw [h4]
  rfl

/-- C8 counterexample: on the archive whose manifest lists the
directory entry `d/` as a payload, `infos()` yields that directory
entry - a directory entry is yielded despite the claim. -/
theorem fz_C8_cex :
    (fzInit (fun _ _ => false) zipC8 "contains" "" false none).toOption.map
      (fun s => ((FZ.infos s).any (fun e => e.is_dir),
        (FZ.infos s).map (fun e => e.filename)))
      = some (true, ["d/"]) := by decide

/-- C8 (amended): `files()` never yields a directory entry in any
mode; in fallback mode (no `manifest.json` member) `infos()` yields no
directory entry and every match-set key is the name of a matching
non-directory entry; in manifest mode `infos()` can yield a directory
entry whose name the manifest lists as a payload (see the
counterexample). -/
theorem fz_C8_amended :
    (∀ (s : FZ) (x : String × Option String),
        x ∈ (fzFiles s).1 → pyEndswith x.1 "/" = false)
    ∧ (∀ (re : String → String → Bool) (zip : ZipFile) (mts pattern : String) (mc : Bool)
        (pws : Option (List (Option String))) (mt : MatchType) (s' : FZ),
        MatchType.ofString? mts = some mt →
        (zip.entries.map (fun e => e.filename)).contains "manifest.json" = false →
        fzInit re zip mts pattern mc pws = Except.ok s' →
        (∀ e, e ∈ FZ.infos s' → e.is_dir = false)
        ∧ (∀ k, k ∈ FZ.names s' → ∃ n, k = Json.str n ∧ pyEndswith n "/" = false)) := by
  constructor
  · intro s x hx
    obtain ⟨e, _, hfn, hdir, _⟩ := filesGo_mem s _ x hx
    rw [← hfn]
    exact hdir
  · intro re zip mts pattern mc pws mt s' hmt hno hok
    rw [fzInit_fallback re zip mts pattern mc pws mt hmt hno] at hok
    obtain rfl := (Except.ok.inj hok).symm
    have hkey : ∀ a, a ∈ (fallbackLoop re mt (if mc then pattern else pyLower pattern) mc
          zip.entries []).map Prod.fst →
        ∃ e, e ∈ zip.entries
          ∧ entryMatches re mt (if mc then pattern else pyLower pattern) mc e = true
          ∧ a = Json.str e.filename := by
      intro a ha
      rcases fallbackLoop_mem re mt _ mc zip.entries [] a ha with h1 | h2
      · simp at h1
      · exact h2
    constructor
    · intro e he
      have hf := List.mem_filter.mp he
      obtain ⟨kv, hkv, hbeq⟩ := List.any_eq_true.mp hf.2
      obtain ⟨e', _, hme', ha⟩ := hkey kv.1 (List.mem_map.mpr ⟨kv, hkv, rfl⟩)
      rw [ha, Json.beq_str] at hbeq
      have hfn : e'.filename = e.filename := by
        exact eq_of_beq hbeq
      rw [entryMatches, Bool.and_eq_true] at hme'
      have hdir : e'.is_dir = false := by simpa using hme'.1
      rw [ZipEntry.is_dir, hfn] at hdir
      rw [ZipEntry.is_dir]
      exact hdir
    · intro k hk
      obtain ⟨e', _, hme', ha⟩ := hkey k hk
      rw [entryMatches, Bool.and_eq_true] at hme'
      have hdir : e'.is_dir = false := by simpa using hme'.1
      rw [ZipEntry.is_dir] at hdir
      exact ⟨e'.filename, ha, hdir⟩

/-- C8 witness: the amended statement at a concrete yielded pair and at
the concrete fallback-mode engine. -/
theorem fz_C8_amended_w :
    pyEndswith "ax.txt" "/" = false
    ∧ ZipEntry.is_dir ⟨"ax.txt", opensAll⟩ = false := by
  constructor
  · exact fz_C8_amended.1 fzW ("ax.txt", none)
      (by rw [show (fzFiles fzW).1 = [("ax.txt", none)] from rfl]; exact List.mem_singleton.mpr rfl)
  · have h := (fz_C8_amended.2 (fun _ _ => false) zipW "contains" "x" true none
      MatchType.contains fzW rfl (by decide) rfl).1
    exact h ⟨"ax.txt", opensAll⟩
      (by rw [show FZ.infos fzW = [⟨"ax.txt", opensAll⟩] from rfl]; exact List.mem_singleton.mpr rfl)

/-- C10: `names()` yields every recorded match-set key - in manifest
mode these are the manifest's payload names whether or not an archive
entry carries them - while `infos()` and `files()` yield only entries
actually present in the archive (each yielded element corresponds to an
archive entry and to a match-set key); on the concrete archive whose
manifest records the payload `ghost` absent from the archive, `names()`
holds `ghost` while no entry does, and `infos()` is strictly shorter
than `names()`. -/
theorem fz_C10 :
    (∀ s : FZ, FZ.names s = s.file_list.map Prod.fst)
    ∧ (∀ (s : FZ) (e : ZipEntry), e ∈ FZ.infos s →
        e ∈ s.zip_file.entries
          ∧ (FZ.names s).any (fun k => k == Json.str e.filename) = true)
    ∧ (∀ (s : FZ) (x : String × Option String), x ∈ (fzFiles s).1 →
        (∃ e, e ∈ s.zip_file.entries ∧ e.filename = x.1)
          ∧ (FZ.names s).any (fun k => k == Json.str x.1) = true)
    ∧ ((fzInit (fun _ _ => false) zipC10 "contains" "" false none).toOption.map
        (fun s => (decide ((FZ.infos s).length < (FZ.names s).length),
          (FZ.names s).any (fun k => k == Json.str "ghost"),
          (zipC10.entries.map (fun e => e.filename)).contains "ghost"))
      = some (true, true, false)) := by
  refine ⟨fun s => rfl, ?_, ?_, by decide⟩
  · intro s e he
    have h := List.mem_filter.mp he
    exact ⟨h.1, names_any_of_member s e.filename h.2⟩
  · intro s x hx
    obtain ⟨e, he, hfn, _, hmem⟩ := filesGo_mem s _ x hx
    exact ⟨⟨e, he, hfn⟩, hfn ▸ names_any_of_member s e.filename hmem⟩

/-- C10 witness: the universal parts applied at the concrete
fallback-mode engine and its single yielded pair. -/
theorem fz_C10_w :
    FZ.names fzW = [Json.str "ax.txt"]
    ∧ (FZ.names fzW).any (fun k => k == Json.str "ax.txt") = true := by
  refine ⟨(fz_C10.1 fzW).trans rfl, ?_⟩
  have h := fz_C10.2.2.1 fzW ("ax.txt", none)
    (by rw [show (fzFiles fzW).1 = [("ax.txt", none)] from rfl]; exact List.mem_singleton.mpr rfl)
  exact h.2
